import Mathlib

/-!
Shallow embedding of `src/forn8n.js`: the file-backed job store
(`saveMessage` / `getMessage`), the retry wrapper `safeCall`, the session
initializer `initializeMidjourney`, and the two HTTP endpoint handlers
`/generate-images` and `/generate-upscale-from-variation`.

The JavaScript `messages` object is modelled as an association list in key
insertion order (all keys are non-index strings, so JS iteration order is
insertion order, and assigning to an existing key keeps its position).
`Date.now()` is passed in explicitly as `now`.  External calls
(`mj.Imagine`, `mj.Custom` through `safeCall`, `mj.init`) are modelled by
explicit outcome parameters, and a thrown JS exception is an explicit
constructor.  JS falsiness of `0`, `""`, `undefined`/`null` and `NaN` is
modelled where the source branches on it.
-/

set_option maxHeartbeats 1000000

namespace Forn8n

/-- One labeled follow-on action on a job record: the `{label, custom}`
objects in a message's `options` array. -/
structure MJOption where
  label : String
  custom : String
deriving DecidableEq, Repr

/-- A job record as stored/returned: the fields of a Midjourney message that
`forn8n.js` reads (`id`, `flags`, `options`, `uri`, `attachments[0].url`),
plus the `timestamp` field that `saveMessage` merges in.  `options = none`
models a message without an `options` field (falsy);
`options = some []` models an empty (truthy) array. -/
structure JobRecord where
  id : String
  flags : Nat
  options : Option (List MJOption)
  uri : Option String
  attachments : List String
  timestamp : Option Nat
deriving DecidableEq, Repr

/-- The persisted mapping: association list in JS-object key order. -/
abbrev Store := List (String × JobRecord)

/-- `messages[id] = data` on a JS object: replace the value at the first
occurrence of the key, keeping its position; append at the end if absent. -/
def setEntry : Store → String → JobRecord → Store
  | [], id, r => [(id, r)]
  | (k, v) :: rest, id, r =>
      if k = id then (k, r) :: rest else (k, v) :: setEntry rest id r

/-- JS `x || d` for a possibly-missing numeric field: `undefined` and `0`
are falsy (`data.timestamp || now` in the eviction filter). -/
def jsOrNat (x : Option Nat) (d : Nat) : Nat :=
  match x with
  | some t => if t = 0 then d else t
  | none => d

/-- `MAX_STORAGE_AGE_MS = 24 * 60 * 60 * 1000`. -/
def MAX_STORAGE_AGE_MS : Nat := 24 * 60 * 60 * 1000

/-- `MAX_STORAGE_SIZE = 100`. -/
def MAX_STORAGE_SIZE : Nat := 100

/-- The eviction filter predicate of `saveMessage`:
`now - (data.timestamp || now) <= MAX_STORAGE_AGE_MS`. -/
def keepsEntry (now : Nat) (e : String × JobRecord) : Bool :=
  (now : Int) - (jsOrNat e.2.timestamp now : Int) ≤ (MAX_STORAGE_AGE_MS : Int)

/-- `Array.prototype.slice(-n)`: the last `n` elements (all of them when the
list is shorter than `n`). -/
def sliceLast (n : Nat) (l : Store) : Store :=
  l.drop (l.length - n)

/-- `{ ...messageData, timestamp: Date.now() }`. -/
def withTimestamp (data : JobRecord) (now : Nat) : JobRecord :=
  { data with timestamp := some now }

/-- `saveMessage(id, messageData)`: merge `timestamp = now` into the record,
write it under `id`, drop entries older than `MAX_STORAGE_AGE_MS`, then keep
only the last `MAX_STORAGE_SIZE` entries (`filter` then `slice`). -/
def saveMessage (store : Store) (id : String) (data : JobRecord) (now : Nat) : Store :=
  let messages := setEntry store id (withTimestamp data now)
  sliceLast MAX_STORAGE_SIZE (messages.filter (keepsEntry now))

/-- `getMessage(id)`: `messages[id] || null`, never throwing for a missing
id (the `Option` result models `null`). -/
def getMessage (store : Store) (id : String) : Option JobRecord :=
  (store.find? (fun e => e.1 == id)).map Prod.snd

/-- Iterated `saveMessage` of a list of ids (same payload and clock),
used to state the claims about inserting many distinct ids. -/
def insertAll (store : Store) (ids : List String) (data : JobRecord) (now : Nat) : Store :=
  ids.foldl (fun s id => saveMessage s id data now) store

/-! The retry wrapper `safeCall(params, retries = 2, delay = 3000)`.
The underlying `mj.Custom` call is modelled by `f : Nat → Except E A`
giving the outcome of each attempt (indexed from 0); `Except.error`
models a thrown exception.  The result carries the number of attempts
made and the total milliseconds slept between attempts. -/

/-- The `for (attempt = 0; attempt <= retries; attempt++)` loop of
`safeCall`; `rem = retries - attempt` is the number of attempts still
allowed after the current one.  On the last attempt a failure is
re-thrown; otherwise a failure sleeps `delay` ms and retries. -/
def safeCallRun (f : Nat → Except E A) (delay : Nat) (attempt : Nat) :
    Nat → Except E A × Nat × Nat
  | 0 => (f attempt, 1, 0)
  | rem + 1 =>
    match f attempt with
    | .ok a => (.ok a, 1, 0)
    | .error _ =>
      let r := safeCallRun f delay (attempt + 1) rem
      (r.1, r.2.1 + 1, r.2.2 + delay)

/-- `safeCall`: result, attempts made, total delay slept. -/
def safeCall (f : Nat → Except E A) (retries : Nat := 2) (delay : Nat := 3000) :
    Except E A × Nat × Nat :=
  safeCallRun f delay 0 retries

/-! The session initializer `initializeMidjourney`. -/

/-- Outcome of one `mj.init()` attempt: `none` = success, `some e` = the
attempt threw `e`. -/
inductive InitErr where
  | enotfound
  | other
deriving DecidableEq, Repr

/-- Result of `initializeMidjourney`: the returned/thrown outcome, the
final `mjInitialized` flag, the number of `mj.init()` calls made, and
the list of waits performed (in ms, in order). -/
structure InitResult where
  result : Except InitErr Unit
  initialized : Bool
  calls : Nat
  delays : List Nat
deriving Repr

/-- The `while (retryCount < maxRetries)` loop, with
`fuel = maxRetries - retryCount`.  On success sets the flag and returns;
on failure increments `retryCount` and retries only when the error is
`ENOTFOUND` and `retryCount < maxRetries`, waiting `baseDelay * retryCount`
(3000 × attempt number); otherwise re-throws. -/
def initLoop (f : Nat → Option InitErr) (retryCount calls : Nat) (delays : List Nat) :
    Nat → InitResult
  | 0 => ⟨.ok (), false, calls, delays⟩
  | fuel + 1 =>
    match f retryCount with
    | none => ⟨.ok (), true, calls + 1, delays⟩
    | some e =>
      if e = InitErr.enotfound ∧ retryCount + 1 < 3 then
        initLoop f (retryCount + 1) (calls + 1) (delays ++ [3000 * (retryCount + 1)]) fuel
      else ⟨.error e, false, calls + 1, delays⟩

/-- `initializeMidjourney()`: returns immediately when `mjInitialized`
is already set, otherwise runs the attempt loop with `maxRetries = 3`. -/
def initializeMJ (initialized : Bool) (f : Nat → Option InitErr) : InitResult :=
  if initialized then ⟨.ok (), true, 0, []⟩
  else initLoop f 0 0 [] 3

/-! The two endpoint handlers.  External calls are modelled by explicit
outcome parameters; a JS exception escaping to the handler's outer
`catch` is an explicit constructor. -/

/-- Outcome of a `safeCall`/`mj.Imagine` invocation as observed by the
handler: the call threw (after the wrapper's retries), or it resolved to
a value (`none` models a falsy response). -/
inductive CallResult where
  | raise
  | value (v : Option JobRecord)

/-- JS `a || b` for string-or-undefined values: `undefined` and `""` are
falsy. -/
def jsOrStr (a b : Option String) : Option String :=
  match a with
  | some s => if s = "" then b else some s
  | none => b

/-- Truthiness filter for a string-or-undefined value: `some s` for a
truthy string, `none` otherwise (models `if (!x)` guards). -/
def jsTruthyStr : Option String → Option String
  | some s => if s = "" then none else some s
  | none => none

/-- `!x` for a string-or-undefined value. -/
def jsFalsyStrOpt : Option String → Bool
  | none => true
  | some s => s = ""

/-- The `delayBetweenUpscales` request field as the handler can observe
it: absent (or otherwise `undefined`), a JSON integer, or a truthy string
that does not parse as an integer (`parseInt` gives `NaN`). -/
inductive DelayParam where
  | absent
  | num (n : Int)
  | nonNumStr
deriving DecidableEq, Repr

/-- JS truthiness of the `delayBetweenUpscales` value (`0` is falsy). -/
def DelayParam.truthy : DelayParam → Bool
  | .absent => false
  | .num n => n != 0
  | .nonNumStr => true

/-- `parseInt(delayBetweenUpscales) || 10000`: a numeric value parses to
itself (`0` is falsy, falling back to 10000); a non-numeric string parses
to `NaN`, which is falsy. -/
def DelayParam.parsedOr10000 : DelayParam → Int
  | .absent => 10000
  | .num n => if n = 0 then 10000 else n
  | .nonNumStr => 10000

/-- The per-iteration pacing delay:
`delayBetweenUpscales ? Math.max(10000, Math.min(parseInt(delayBetweenUpscales) || 10000, 15000))
: Math.floor(Math.random() * 5000) + 10000`.
`rand` models the random draw; `rand % 5000` is the floored value in
`[0, 5000)`. -/
def effectiveDelay (d : DelayParam) (rand : Nat) : Int :=
  if d.truthy then max 10000 (min d.parsedOr10000 15000)
  else ((rand % 5000 : Nat) : Int) + 10000

/-- One entry of the `upscaledImages` response list. -/
structure UpscaledImage where
  label : String
  imageUrl : String
  upscaleNumber : Int
deriving DecidableEq, Repr

/-- Numeric value of a decimal digit character, `none` otherwise. -/
def digitVal (c : Char) : Option Nat :=
  if c.isDigit then some (c.toNat - 48) else none

/-- Value of the longest digit prefix, accumulator style. -/
def digitPrefixVal : List Char → Nat → Nat
  | [], acc => acc
  | c :: cs, acc =>
    match digitVal c with
    | none => acc
    | some d => digitPrefixVal cs (acc * 10 + d)

/-- `parseInt` on a character list: `none` (`NaN`) when empty or starting
with a non-digit, else the value of the longest digit prefix. -/
def parseIntChars : List Char → Option Nat
  | [] => none
  | c :: cs =>
    match digitVal c with
    | none => none
    | some d => some (digitPrefixVal cs d)

/-- `parseInt(label.substring(1))` for the fixed labels `"U1"`/`"U2"`
(for these labels `parseInt` never yields `NaN`, so the `getD` default is
never taken). -/
def upscaleNumberOf (label : String) : Int :=
  ((parseIntChars (label.data.drop 1)).getD 0 : Nat)

/-- Observable events of a handler run: a `setTimeout` wait and an
external action invocation (`mj.Custom` via `safeCall`, identified by the
`customId` token passed to it). -/
inductive Event where
  | delayEv (ms : Int)
  | invokeEv (customId : String)
deriving DecidableEq, Repr

/-- The external world of one upscale-loop iteration: the random draw for
the pacing delay and the outcome of the `safeCall` for this label (unused
when the label's option is missing, since the call is then skipped). -/
structure StepInput where
  rand : Nat
  call : CallResult

/-- Result of one upscale-loop iteration: events in order, whether a JS
exception escaped (a `safeCall` that threw), and the produced entry. -/
structure StepResult where
  events : List Event
  raised : Bool
  img : Option UpscaledImage

/-- One iteration of the upscale loop: wait the pacing delay, look up the
label on the variation record (skip when missing), invoke the action
(propagate a throw; skip a falsy response), extract
`uri || attachments[0].url` (skip when falsy), else produce
`{label, imageUrl, upscaleNumber}`. -/
def upscaleStep (vmOptions : List MJOption) (dp : DelayParam) (inp : StepInput)
    (label : String) : StepResult :=
  let delayMs := effectiveDelay dp inp.rand
  let ev0 := [Event.delayEv delayMs]
  match vmOptions.find? (fun o => o.label == label) with
  | none => ⟨ev0, false, none⟩
  | some opt =>
    let ev1 := ev0 ++ [Event.invokeEv opt.custom]
    match inp.call with
    | .raise => ⟨ev1, true, none⟩
    | .value none => ⟨ev1, false, none⟩
    | .value (some up) =>
      match jsTruthyStr (jsOrStr up.uri up.attachments.head?) with
      | none => ⟨ev1, false, none⟩
      | some url => ⟨ev1, false, some ⟨label, url, upscaleNumberOf label⟩⟩

/-- The `for (const label of upscaleLabels)` loop over indexed labels:
accumulates successful entries and events; a raised step aborts the loop
(the exception propagates to the outer `catch`). -/
def runUpscaleLoop (vmOptions : List MJOption) (dp : DelayParam) (steps : Nat → StepInput) :
    List (Nat × String) → List UpscaledImage → List Event →
      List UpscaledImage × List Event × Bool
  | [], acc, evs => (acc, evs, false)
  | (i, label) :: rest, acc, evs =>
    let st := upscaleStep vmOptions dp (steps i) label
    if st.raised then (acc, evs ++ st.events, true)
    else runUpscaleLoop vmOptions dp steps rest (acc ++ st.img.toList) (evs ++ st.events)

/-- Request body of `POST /generate-upscale-from-variation`. -/
structure UpscaleRequest where
  originalMessageId : Option String
  variationNumber : Option Int
  delayBetweenUpscales : DelayParam

/-- External behavior during one `/generate-upscale-from-variation`
request: the variation `safeCall`'s outcome, the per-iteration inputs of
the upscale loop, and the clock used by `saveMessage`. -/
structure UpscaleWorld where
  variationCall : CallResult
  upscaleSteps : Nat → StepInput
  now : Nat

/-- The handler's HTTP response, one constructor per `res.status(...)`
site: 400 for missing/out-of-range params; 404 for unknown message or no
options; 404 listing available labels for a missing variation; 500
"Failed to create variation" (no response / no options); the outer-catch
500; and the 200 completion body. -/
inductive UpscaleResponse where
  | badRequest
  | notFoundNoMessage
  | notFoundNoVariation (availableOptions : List String)
  | failedVariationNoResponse
  | failedVariationNoOptions
  | caughtError
  | completed (originalMessageId variationLabel variationMessageId : String)
      (upscaledImages : List UpscaledImage) (clampedMode : Bool)
deriving DecidableEq, Repr

/-- The `/generate-upscale-from-variation` handler: validation, store
lookup, variation resolution and invocation, persistence of the variation
record, then the upscale loop.  Returns the response, the store after the
request, and the event trace.  `clampedMode` is the `actualDelaysUsed`
branch (`delayBetweenUpscales ? "...(clamped to 10-15s)" : "random 10-15s"`). -/
def generateUpscaleFromVariation (req : UpscaleRequest) (store : Store)
    (w : UpscaleWorld) : UpscaleResponse × Store × List Event :=
  match req.variationNumber with
  | none => (.badRequest, store, [])
  | some vn =>
    if jsFalsyStrOpt req.originalMessageId || vn < 1 || vn > 4 then
      (.badRequest, store, [])
    else
      match req.originalMessageId with
      | none => (.badRequest, store, [])
      | some origId =>
        match getMessage store origId with
        | none => (.notFoundNoMessage, store, [])
        | some orig =>
          match orig.options with
          | none => (.notFoundNoMessage, store, [])
          | some origOptions =>
            let variationLabel := "V" ++ toString vn
            match origOptions.find? (fun o => o.label == variationLabel) with
            | none => (.notFoundNoVariation (origOptions.map (fun o => o.label)), store, [])
            | some vopt =>
              let evs0 := [Event.invokeEv vopt.custom]
              match w.variationCall with
              | .raise => (.caughtError, store, evs0)
              | .value none => (.failedVariationNoResponse, store, evs0)
              | .value (some vm) =>
                match vm.options with
                | none => (.failedVariationNoOptions, store, evs0)
                | some vmOptions =>
                  let store1 := saveMessage store vm.id vm w.now
                  let loopRes := runUpscaleLoop vmOptions req.delayBetweenUpscales
                    w.upscaleSteps [(0, "U1"), (1, "U2")] [] []
                  if loopRes.2.2 then (.caughtError, store1, evs0 ++ loopRes.2.1)
                  else
                    (.completed origId variationLabel vm.id loopRes.1
                      req.delayBetweenUpscales.truthy, store1, evs0 ++ loopRes.2.1)

/-- Request body of `POST /generate-images`.  The `count` field is
modelled as a JSON integer or absent (`parseInt` of an integer is the
integer itself and is `NaN` only when the field cannot parse, which the
spec's contract excludes by typing `count` as an integer). -/
structure GenRequest where
  keyword : Option String
  count : Option Int

/-- External behavior during one `/generate-images` request: the
`mj.Imagine` outcome and the clock. -/
structure GenWorld where
  imagine : CallResult
  now : Nat

/-- The `/generate-images` handler's response, one constructor per
response site: 400 missing params, 400 count out of range, the inner
`catch`'s 500 (also covering a falsy Imagine response, which is thrown
and caught there), and the 200 body. -/
inductive GenResponse where
  | missingParams
  | badCount
  | imagineError
  | success (messageId : String) (imageUrl : Option String) (options : List String)
      (generatedCount : Nat)
deriving DecidableEq, Repr

/-- The `/generate-images` handler: validates `keyword`/`count`, calls
`mj.Imagine` exactly once when validation passes, persists the response
record, and answers with `generatedCount: 1`.  Returns the response, the
store after the request, and the number of Imagine invocations. -/
def generateImages (req : GenRequest) (store : Store) (w : GenWorld) :
    GenResponse × Store × Nat :=
  match req.count with
  | none => (.missingParams, store, 0)
  | some c =>
    if jsFalsyStrOpt req.keyword then (.missingParams, store, 0)
    else if c < 1 || c > 10 then (.badCount, store, 0)
    else
      match w.imagine with
      | .raise => (.imagineError, store, 1)
      | .value none => (.imagineError, store, 1)
      | .value (some resp) =>
        let imageUrl := jsOrStr resp.uri resp.attachments.head?
        let store1 := saveMessage store resp.id resp w.now
        (.success resp.id imageUrl
          ((resp.options.map (fun os => os.map (fun o => o.label))).getD []) 1,
          store1, 1)

/-! Concrete fixtures used by witness instantiations. -/

/-- A concrete job record (flags field `i`, timestamp 7). -/
def wRec (i : Nat) : JobRecord := ⟨"x", i, none, none, [], some 7⟩

/-- 99 concrete store entries with distinct keys `k1..k99`, all written at
time 7. -/
def wRest99 : Store := (List.range 99).map (fun i => ("k" ++ toString (i + 1), wRec 0))

/-- A stored original message holding a `V1` option. -/
def cexOrig : JobRecord := ⟨"m1", 5, some [⟨"V1", "cv1"⟩], none, [], some 7⟩

/-- A variation record with both upscale options. -/
def cexVm : JobRecord := ⟨"vm1", 6, some [⟨"U1", "cu1"⟩, ⟨"U2", "cu2"⟩], some "vuri", [], none⟩

/-- A variation record lacking the `U1` option. -/
def cexVmNoU1 : JobRecord := ⟨"vm1", 6, some [⟨"U2", "cu2"⟩], some "vuri", [], none⟩

/-- A successful upscale response record. -/
def cexUp : JobRecord := ⟨"up1", 0, none, some "upurl", [], none⟩

/-- World where the variation call succeeds with `cexVm` and every upscale
call throws after its retries. -/
def cexWorldRaise : UpscaleWorld := ⟨.value (some cexVm), fun _ => ⟨0, .raise⟩, 9⟩

/-- World where the variation call yields `cexVmNoU1` and the upscale
calls resolve to `cexUp`. -/
def cexWorldNoU1 : UpscaleWorld :=
  ⟨.value (some cexVmNoU1), fun _ => ⟨0, .value (some cexUp)⟩, 9⟩

/-! Helper lemmas about the store operations. -/

lemma keepsEntry_of_timestamp_now (now : Nat) (e : String × JobRecord)
    (h : e.2.timestamp = some now) : keepsEntry now e = true := by
  simp only [keepsEntry, jsOrNat, h, MAX_STORAGE_AGE_MS, decide_eq_true_eq]
  split <;> omega

lemma keepsEntry_withTimestamp (now : Nat) (k : String) (d : JobRecord) :
    keepsEntry now (k, withTimestamp d now) = true :=
  keepsEntry_of_timestamp_now now _ rfl

lemma setEntry_of_not_mem (s : Store) (id : String) (r : JobRecord)
    (h : id ∉ s.map Prod.fst) : setEntry s id r = s ++ [(id, r)] := by
  induction s with
  | nil => rfl
  | cons e rest ih =>
    obtain ⟨k, v⟩ := e
    simp only [List.map_cons, List.mem_cons, not_or] at h
    have hne : ¬ k = id := fun hk => h.1 hk.symm
    simp only [setEntry, if_neg hne, List.cons_append, List.cons.injEq, true_and]
    exact ih h.2

lemma setEntry_keys_of_mem (s : Store) (id : String) (r : JobRecord)
    (h : id ∈ s.map Prod.fst) : (setEntry s id r).map Prod.fst = s.map Prod.fst := by
  induction s with
  | nil => simp at h
  | cons e rest ih =>
    obtain ⟨k, v⟩ := e
    by_cases hk : k = id
    · simp [setEntry, hk]
    · simp only [List.map_cons, List.mem_cons, eq_comm (a := id)] at h
      simp only [setEntry, if_neg hk, List.map_cons, List.cons.injEq, true_and]
      exact ih (h.resolve_left hk)

lemma mem_setEntry_self (s : Store) (id : String) (r : JobRecord) :
    (id, r) ∈ setEntry s id r := by
  induction s with
  | nil => simp [setEntry]
  | cons e rest ih =>
    obtain ⟨k, v⟩ := e
    by_cases hk : k = id
    · simp [setEntry, hk]
    · simp only [setEntry, if_neg hk, List.mem_cons]
      exact Or.inr ih

lemma mem_of_mem_setEntry (s : Store) (id : String) (r : JobRecord) (e : String × JobRecord)
    (he : e ∈ setEntry s id r) : e ∈ s ∨ e = (id, r) := by
  induction s with
  | nil => simpa [setEntry] using he
  | cons e0 rest ih =>
    obtain ⟨k, v⟩ := e0
    by_cases hk : k = id
    · simp only [setEntry, if_pos hk, List.mem_cons] at he
      rcases he with h | h
      · exact Or.inr (by simp [h, hk])
      · exact Or.inl (List.mem_cons_of_mem _ h)
    · simp only [setEntry, if_neg hk, List.mem_cons] at he
      rcases he with h | h
      · exact Or.inl (by simp [h])
      · rcases ih h with h' | h'
        · exact Or.inl (List.mem_cons_of_mem _ h')
        · exact Or.inr h'

lemma setEntry_value_eq (s : Store) (id : String) (r : JobRecord)
    (hnd : (s.map Prod.fst).Nodup) (e : String × JobRecord)
    (he : e ∈ setEntry s id r) (hk : e.1 = id) : e.2 = r := by
  induction s with
  | nil =>
    simp only [setEntry, List.mem_singleton] at he
    simp [he]
  | cons e0 rest ih =>
    obtain ⟨k, v⟩ := e0
    simp only [List.map_cons, List.nodup_cons] at hnd
    by_cases hkid : k = id
    · simp only [setEntry, if_pos hkid, List.mem_cons] at he
      rcases he with h | h
      · simp [h]
      · exfalso
        exact hnd.1 (hkid ▸ (hk ▸ List.mem_map_of_mem Prod.fst h))
    · simp only [setEntry, if_neg hkid, List.mem_cons] at he
      rcases he with h | h
      · exfalso; exact hkid (by rw [← hk, h])
      · exact ih hnd.2 h

lemma setEntry_keys_nodup (s : Store) (id : String) (r : JobRecord)
    (hnd : (s.map Prod.fst).Nodup) : ((setEntry s id r).map Prod.fst).Nodup := by
  by_cases h : id ∈ s.map Prod.fst
  · rw [setEntry_keys_of_mem s id r h]; exact hnd
  · rw [setEntry_of_not_mem s id r h]
    simp only [List.map_append, List.map_cons, List.map_nil]
    simp [List.nodup_append, hnd, h]

lemma getMessage_eq_none (s : Store) (id : String) (h : id ∉ s.map Prod.fst) :
    getMessage s id = none := by
  unfold getMessage
  have hnone : s.find? (fun e => e.1 == id) = none := by
    apply List.find?_eq_none.mpr
    intro e he
    simp only [beq_iff_eq]
    intro hk
    exact h (hk ▸ List.mem_map_of_mem Prod.fst he)
  rw [hnone]
  rfl

lemma getMessage_value (s : Store) (id : String) (v : JobRecord)
    (hmem : id ∈ s.map Prod.fst)
    (hval : ∀ e ∈ s, e.1 = id → e.2 = v) :
    getMessage s id = some v := by
  unfold getMessage
  rcases hfind : s.find? (fun e => e.1 == id) with _ | e
  · exfalso
    obtain ⟨e, he, hk⟩ := List.mem_map.mp hmem
    have hne := List.find?_eq_none.mp hfind e he
    simp only [beq_iff_eq] at hne
    exact hne hk
  · have h0 := List.find?_some hfind
    have h1 : e.1 = id := by simpa using h0
    have h2 : e ∈ s := List.mem_of_find?_eq_some hfind
    rw [hfind]
    simp [hval e h2 h1]

lemma sliceLast_length_le (n : Nat) (l : Store) : (sliceLast n l).length ≤ n := by
  simp only [sliceLast, List.length_drop]
  omega

lemma sliceLast_sublist (n : Nat) (l : Store) : (sliceLast n l).Sublist l :=
  List.drop_sublist _ _

lemma mem_of_mem_sliceLast (n : Nat) (l : Store) (e : String × JobRecord)
    (h : e ∈ sliceLast n l) : e ∈ l :=
  (sliceLast_sublist n l).mem h

lemma sliceLast_eq_self (n : Nat) (l : Store) (h : l.length ≤ n) : sliceLast n l = l := by
  unfold sliceLast
  rw [Nat.sub_eq_zero_of_le h, List.drop_zero]

lemma sliceLast_append_singleton (n : Nat) (hn : 0 < n) (X : Store) (e : String × JobRecord) :
    sliceLast n (sliceLast n X ++ [e]) = sliceLast n (X ++ [e]) := by
  rcases Nat.lt_or_ge X.length n with h | h
  · rw [sliceLast_eq_self n X (Nat.le_of_lt h)]
  · unfold sliceLast
    rw [List.drop_append_eq_append_drop, List.drop_append_eq_append_drop,
      List.drop_drop]
    simp only [List.length_append, List.length_drop, List.length_cons, List.length_nil]
    congr 2 <;> omega

lemma insertAll_empty_eq_sliceLast (data : JobRecord) (now : Nat) :
    ∀ ids : List String, ids.Nodup →
      insertAll [] ids data now
        = sliceLast MAX_STORAGE_SIZE (ids.map (fun i => (i, withTimestamp data now))) := by
  intro ids
  induction ids using List.reverseRecOn with
  | nil => intro _; rfl
  | append_singleton l id ih =>
    intro hnd
    have h' := List.nodup_append.mp hnd
    have hl : l.Nodup := h'.1
    have hid : id ∉ l := fun hm => h'.2.2 hm (List.mem_singleton_self id)
    have hstep : insertAll [] (l ++ [id]) data now
        = saveMessage (insertAll [] l data now) id data now := by
      unfold insertAll
      rw [List.foldl_append]
      rfl
    rw [hstep, ih hl]
    set v := withTimestamp data now with hv
    have hidS : id ∉ (sliceLast MAX_STORAGE_SIZE (l.map fun i => (i, v))).map Prod.fst := by
      intro hm
      obtain ⟨e, he, hk⟩ := List.mem_map.mp hm
      have hml := mem_of_mem_sliceLast _ _ _ he
      obtain ⟨i, hi, hie⟩ := List.mem_map.mp hml
      have hiid : i = id := by rw [← hk, ← hie]
      exact hid (hiid ▸ hi)
    have hall : ∀ e ∈ sliceLast MAX_STORAGE_SIZE (l.map fun i => (i, v)) ++ [(id, v)],
        keepsEntry now e = true := by
      intro e he
      rcases List.mem_append.mp he with h | h
      · have hml := mem_of_mem_sliceLast _ _ _ h
        obtain ⟨i, _, hie⟩ := List.mem_map.mp hml
        apply keepsEntry_of_timestamp_now
        rw [← hie]
        rfl
      · simp only [List.mem_singleton] at h
        subst h
        exact keepsEntry_withTimestamp now id data
    unfold saveMessage
    rw [← hv, setEntry_of_not_mem _ _ _ hidS]
    show sliceLast MAX_STORAGE_SIZE
        (List.filter (keepsEntry now)
          (sliceLast MAX_STORAGE_SIZE (List.map (fun i => (i, v)) l) ++ [(id, v)])) = _
    rw [List.filter_eq_self.mpr hall,
      sliceLast_append_singleton MAX_STORAGE_SIZE (by decide)]
    congr 1
    simp [hv]

lemma setEntry_length_le (s : Store) (id : String) (r : JobRecord) :
    (setEntry s id r).length ≤ s.length + 1 := by
  induction s with
  | nil => simp [setEntry]
  | cons e rest ih =>
    obtain ⟨k, v⟩ := e
    by_cases hk : k = id
    · simp [setEntry, hk]
    · simp [setEntry, hk]
      omega

lemma filter_keepsEntry_of_fresh (now : Nat) (l : Store)
    (h : ∀ e ∈ l, e.2.timestamp = some now) : l.filter (keepsEntry now) = l :=
  List.filter_eq_self.mpr (fun e he => keepsEntry_of_timestamp_now now e (h e he))

lemma getMessage_saveMessage_of_mem (store : Store) (id : String) (data : JobRecord)
    (now : Nat) (hnd : (store.map Prod.fst).Nodup)
    (hmem : id ∈ (saveMessage store id data now).map Prod.fst) :
    getMessage (saveMessage store id data now) id = some (withTimestamp data now) := by
  apply getMessage_value _ _ _ hmem
  intro e he hk
  have h1 : e ∈ (setEntry store id (withTimestamp data now)).filter (keepsEntry now) :=
    mem_of_mem_sliceLast _ _ _ he
  have h2 : e ∈ setEntry store id (withTimestamp data now) := (List.mem_filter.mp h1).1
  exact setEntry_value_eq store id _ hnd e h2 hk

lemma mem_saveMessage_of_small (store : Store) (id : String) (data : JobRecord)
    (now : Nat) (hlen : store.length ≤ 99) :
    id ∈ (saveMessage store id data now).map Prod.fst := by
  have hm : (id, withTimestamp data now) ∈ setEntry store id (withTimestamp data now) :=
    mem_setEntry_self store id _
  have hf : (id, withTimestamp data now)
      ∈ (setEntry store id (withTimestamp data now)).filter (keepsEntry now) :=
    List.mem_filter.mpr ⟨hm, keepsEntry_withTimestamp now id data⟩
  have hlen1 : ((setEntry store id (withTimestamp data now)).filter (keepsEntry now)).length
      ≤ MAX_STORAGE_SIZE := by
    have h1 := List.length_filter_le (keepsEntry now) (setEntry store id (withTimestamp data now))
    have h2 := setEntry_length_le store id (withTimestamp data now)
    simp only [MAX_STORAGE_SIZE]
    omega
  have hslice := sliceLast_eq_self MAX_STORAGE_SIZE _ hlen1
  simp only [saveMessage]
  rw [hslice]
  exact List.mem_map_of_mem Prod.fst hf

/-- Claim C1: after every `saveMessage`, the persisted mapping first drops
every entry older than 24 hours, then keeps only the last 100 entries in
insertion/iteration order (age filter before size cap); inserting 101
distinct ids into an empty store leaves exactly 100 present, with the
least-recently-inserted id the one dropped. -/
theorem saveMessage_eviction_policy :
    (∀ (store : Store) (id : String) (data : JobRecord) (now : Nat),
        (saveMessage store id data now).length ≤ MAX_STORAGE_SIZE) ∧
    (∀ (store : Store) (id : String) (data : JobRecord) (now : Nat),
        ∀ e ∈ saveMessage store id data now,
          (now : Int) - (jsOrNat e.2.timestamp now : Int) ≤ (MAX_STORAGE_AGE_MS : Int)) ∧
    (∀ (store : Store) (id : String) (data : JobRecord) (now : Nat),
        saveMessage store id data now
          = sliceLast MAX_STORAGE_SIZE
              ((setEntry store id (withTimestamp data now)).filter (keepsEntry now))) ∧
    (∀ (id0 : String) (rest : List String) (data : JobRecord) (now : Nat),
        (id0 :: rest).Nodup → (id0 :: rest).length = 101 →
        (insertAll [] (id0 :: rest) data now).length = 100 ∧
        getMessage (insertAll [] (id0 :: rest) data now) id0 = none ∧
        ∀ id ∈ rest, getMessage (insertAll [] (id0 :: rest) data now) id
          = some (withTimestamp data now)) := by
  refine ⟨?_, ?_, ?_, ?_⟩
  · intro store id data now
    exact sliceLast_length_le _ _
  · intro store id data now e he
    have h1 : e ∈ (setEntry store id (withTimestamp data now)).filter (keepsEntry now) :=
      mem_of_mem_sliceLast _ _ _ he
    have h2 : keepsEntry now e = true := (List.mem_filter.mp h1).2
    simpa [keepsEntry] using h2
  · intro store id data now
    rfl
  · intro id0 rest data now hnd h101
    have hins := insertAll_empty_eq_sliceLast data now (id0 :: rest) hnd
    have hrest : rest.length = 100 := by
      simp only [List.length_cons] at h101
      omega
    have hdrop : insertAll [] (id0 :: rest) data now
        = rest.map (fun i => (i, withTimestamp data now)) := by
      rw [hins]
      unfold sliceLast
      have hlenm : ((id0 :: rest).map (fun i => (i, withTimestamp data now))).length
          - MAX_STORAGE_SIZE = 1 := by
        simp only [List.length_map, List.length_cons, MAX_STORAGE_SIZE]
        omega
      rw [hlenm]
      simp
    have hkeys : (rest.map (fun i => (i, withTimestamp data now))).map Prod.fst = rest := by
      simp [List.map_map, Function.comp_def]
    have hid0 : id0 ∉ rest := (List.nodup_cons.mp hnd).1
    refine ⟨?_, ?_, ?_⟩
    · rw [hdrop]
      simp [hrest]
    · rw [hdrop]
      apply getMessage_eq_none
      rw [hkeys]
      exact hid0
    · intro id hid
      rw [hdrop]
      apply getMessage_value
      · rw [hkeys]; exact hid
      · intro e he _
        obtain ⟨i, _, hie⟩ := List.mem_map.mp he
        rw [← hie]

/-- Claim C1 witness: instantiation at 101 concrete distinct ids. -/
theorem saveMessage_eviction_policy_witness :
    (("id0" :: (List.range 100).map (fun n => "id" ++ toString (n + 1))).Nodup ∧
      ("id0" :: (List.range 100).map (fun n => "id" ++ toString (n + 1))).length = 101) ∧
    ((insertAll [] ("id0" :: (List.range 100).map (fun n => "id" ++ toString (n + 1)))
        ⟨"x", 0, none, none, [], none⟩ 5).length = 100 ∧
      getMessage (insertAll [] ("id0" :: (List.range 100).map (fun n => "id" ++ toString (n + 1)))
        ⟨"x", 0, none, none, [], none⟩ 5) "id0" = none ∧
      ∀ id ∈ (List.range 100).map (fun n => "id" ++ toString (n + 1)),
        getMessage (insertAll [] ("id0" :: (List.range 100).map (fun n => "id" ++ toString (n + 1)))
          ⟨"x", 0, none, none, [], none⟩ 5) id
          = some (withTimestamp ⟨"x", 0, none, none, [], none⟩ 5)) :=
  ⟨⟨by decide, by decide⟩,
    saveMessage_eviction_policy.2.2.2 "id0" _ ⟨"x", 0, none, none, [], none⟩ 5
      (by decide) (by decide)⟩

/-- Claim C5: a `saveMessage` followed by a `getMessage` of the same id,
while the entry is still inside the age and size windows (i.e. still
present in the persisted mapping — guaranteed e.g. whenever the prior
store held at most 99 entries), returns the stored record with its
`timestamp` set by the store; and `getMessage` of an unknown id returns
`null` (modelled as `none`) rather than throwing. -/
theorem saveMessage_getMessage_roundtrip :
    (∀ (store : Store) (id : String) (data : JobRecord) (now : Nat),
        (store.map Prod.fst).Nodup →
        id ∈ (saveMessage store id data now).map Prod.fst →
        getMessage (saveMessage store id data now) id = some (withTimestamp data now)) ∧
    (∀ (store : Store) (id : String) (data : JobRecord) (now : Nat),
        (store.map Prod.fst).Nodup → store.length ≤ 99 →
        getMessage (saveMessage store id data now) id = some (withTimestamp data now)) ∧
    (∀ (store : Store) (id : String),
        id ∉ store.map Prod.fst → getMessage store id = none) := by
  refine ⟨?_, ?_, ?_⟩
  · intro store id data now hnd hmem
    exact getMessage_saveMessage_of_mem store id data now hnd hmem
  · intro store id data now hnd hlen
    exact getMessage_saveMessage_of_mem store id data now hnd
      (mem_saveMessage_of_small store id data now hlen)
  · intro store id h
    exact getMessage_eq_none store id h

/-- Claim C5 witness: instantiation at a concrete one-entry store. -/
theorem saveMessage_getMessage_roundtrip_witness :
    (([(("a" : String), (⟨"a", 1, none, none, [], some 3⟩ : JobRecord))].map Prod.fst).Nodup ∧
      [(("a" : String), (⟨"a", 1, none, none, [], some 3⟩ : JobRecord))].length ≤ 99) ∧
    getMessage (saveMessage [("a", ⟨"a", 1, none, none, [], some 3⟩)] "b"
        ⟨"b", 2, none, some "u", [], none⟩ 7) "b"
      = some (withTimestamp ⟨"b", 2, none, some "u", [], none⟩ 7) :=
  ⟨⟨by decide, by decide⟩,
    saveMessage_getMessage_roundtrip.2.1 [("a", ⟨"a", 1, none, none, [], some 3⟩)] "b"
      ⟨"b", 2, none, some "u", [], none⟩ 7 (by decide) (by decide)⟩

/-- Claim C10: writing an existing id replaces the record in place but
keeps the entry's original position in iteration order; hence the size
cap ranks it by first insertion, and a just-updated entry (sitting at the
oldest position of a full store) is evicted by the very next insertion of
a new id, while every id first inserted after it stays. -/
theorem saveMessage_update_in_place :
    (∀ (store : Store) (id : String) (r : JobRecord),
        id ∈ store.map Prod.fst →
        (setEntry store id r).map Prod.fst = store.map Prod.fst) ∧
    (∀ (k newId : String) (r0 d1 d2 : JobRecord) (rest : Store) (now : Nat),
        (((k, r0) :: rest).map Prod.fst).Nodup →
        ((k, r0) :: rest).length = 100 →
        (∀ e ∈ (k, r0) :: rest, e.2.timestamp = some now) →
        newId ∉ ((k, r0) :: rest).map Prod.fst →
        getMessage (saveMessage (saveMessage ((k, r0) :: rest) k d1 now) newId d2 now) k
            = none ∧
        getMessage (saveMessage (saveMessage ((k, r0) :: rest) k d1 now) newId d2 now) newId
            = some (withTimestamp d2 now) ∧
        (saveMessage (saveMessage ((k, r0) :: rest) k d1 now) newId d2 now).length = 100) := by
  constructor
  · intro store id r hmem
    exact setEntry_keys_of_mem store id r hmem
  · intro k newId r0 d1 d2 rest now hnd hlen hts hnew
    have hrest : rest.length = 99 := by
      simp only [List.length_cons] at hlen
      omega
    have hfresh1 : ∀ e ∈ (k, withTimestamp d1 now) :: rest, e.2.timestamp = some now := by
      intro e he
      rcases List.mem_cons.mp he with h | h
      · subst h; rfl
      · exact hts e (List.mem_cons_of_mem _ h)
    have hset1 : setEntry ((k, r0) :: rest) k (withTimestamp d1 now)
        = (k, withTimestamp d1 now) :: rest := by
      simp [setEntry]
    have hs1 : saveMessage ((k, r0) :: rest) k d1 now = (k, withTimestamp d1 now) :: rest := by
      simp only [saveMessage]
      rw [hset1, filter_keepsEntry_of_fresh now _ hfresh1]
      apply sliceLast_eq_self
      simp only [List.length_cons, MAX_STORAGE_SIZE]
      omega
    have hkeys1 : newId ∉ ((k, withTimestamp d1 now) :: rest).map Prod.fst := by
      simpa using hnew
    have hfresh2 : ∀ e ∈ ((k, withTimestamp d1 now) :: rest) ++ [(newId, withTimestamp d2 now)],
        e.2.timestamp = some now := by
      intro e he
      rcases List.mem_append.mp he with h | h
      · exact hfresh1 e h
      · simp only [List.mem_singleton] at h
        subst h; rfl
    have hs2 : saveMessage ((k, withTimestamp d1 now) :: rest) newId d2 now
        = rest ++ [(newId, withTimestamp d2 now)] := by
      simp only [saveMessage]
      rw [setEntry_of_not_mem _ _ _ hkeys1, filter_keepsEntry_of_fresh now _ hfresh2]
      unfold sliceLast
      have hl1 : (((k, withTimestamp d1 now) :: rest)
          ++ [(newId, withTimestamp d2 now)]).length - MAX_STORAGE_SIZE = 1 := by
        simp only [List.length_append, List.length_cons, List.length_nil, MAX_STORAGE_SIZE]
        omega
      rw [hl1]
      simp
    rw [hs1, hs2]
    have hknotrest : k ∉ rest.map Prod.fst := by
      simp only [List.map_cons, List.nodup_cons] at hnd
      exact hnd.1
    have hknew : k ≠ newId := by
      intro h
      apply hnew
      rw [← h]
      simp
    have hnewrest : newId ∉ rest.map Prod.fst := by
      intro h
      apply hnew
      simp only [List.map_cons, List.mem_cons]
      exact Or.inr h
    refine ⟨?_, ?_, ?_⟩
    · apply getMessage_eq_none
      simp only [List.map_append, List.mem_append, List.map_cons, List.map_nil,
        List.mem_singleton, not_or]
      exact ⟨hknotrest, by simpa using hknew⟩
    · apply getMessage_value
      · simp
      · intro e he hk
        rcases List.mem_append.mp he with h | h
        · exfalso
          exact hnewrest (hk ▸ List.mem_map_of_mem Prod.fst h)
        · simp only [List.mem_singleton] at h
          simp [h]
    · simp [hrest]

/-- Claim C10 witness: instantiation at a concrete full store of 100
entries whose first entry is then updated and evicted by one new insert. -/
theorem saveMessage_update_in_place_witness :
    (((("k0", wRec 0) :: wRest99).map Prod.fst).Nodup ∧
      (("k0", wRec 0) :: wRest99).length = 100 ∧
      (∀ e ∈ ("k0", wRec 0) :: wRest99, e.2.timestamp = some 7) ∧
      "new" ∉ (("k0", wRec 0) :: wRest99).map Prod.fst) ∧
    (getMessage (saveMessage (saveMessage (("k0", wRec 0) :: wRest99) "k0" (wRec 1) 7)
          "new" (wRec 2) 7) "k0" = none ∧
      getMessage (saveMessage (saveMessage (("k0", wRec 0) :: wRest99) "k0" (wRec 1) 7)
          "new" (wRec 2) 7) "new" = some (withTimestamp (wRec 2) 7) ∧
      (saveMessage (saveMessage (("k0", wRec 0) :: wRest99) "k0" (wRec 1) 7)
          "new" (wRec 2) 7).length = 100) :=
  ⟨⟨by decide, by decide, by decide, by decide⟩,
    saveMessage_update_in_place.2 "k0" "new" (wRec 0) (wRec 1) (wRec 2) wRest99 7
      (by decide) (by decide) (by decide) (by decide)⟩


/-! Claims about `safeCall` and `initializeMidjourney`. -/

lemma safeCallRun_calls_le (f : Nat → Except E A) (delay attempt : Nat) :
    ∀ rem, (safeCallRun f delay attempt rem).2.1 ≤ rem + 1 := by
  intro rem
  induction rem generalizing attempt with
  | zero => simp [safeCallRun]
  | succ n ih =>
    simp only [safeCallRun]
    match f attempt with
    | .ok a => simp
    | .error e =>
      simp only []
      have := ih (attempt + 1)
      omega

/-- Claim C2: `safeCall` makes at most 3 total attempts (2 retries) of the
underlying call, sleeping a fixed 3000 ms before each retry (total slept
time is 3000 × (attempts − 1)); any successful attempt's result is
returned, and when all 3 attempts fail the last failure is re-raised. -/
theorem safeCall_retry_contract (f : Nat → Except String JobRecord) :
    (safeCall f).2.1 ≤ 3 ∧
    ((safeCall f).2.2 = 3000 * ((safeCall f).2.1 - 1)) ∧
    (∀ a, f 0 = .ok a → safeCall f = (.ok a, 1, 0)) ∧
    (∀ e0 a, f 0 = .error e0 → f 1 = .ok a → safeCall f = (.ok a, 2, 3000)) ∧
    (∀ e0 e1 a, f 0 = .error e0 → f 1 = .error e1 → f 2 = .ok a →
        safeCall f = (.ok a, 3, 6000)) ∧
    (∀ e0 e1 e2, f 0 = .error e0 → f 1 = .error e1 → f 2 = .error e2 →
        safeCall f = (.error e2, 3, 6000)) := by
  have hdelay : (safeCall f).2.2 = 3000 * ((safeCall f).2.1 - 1) := by
    unfold safeCall safeCallRun
    rcases f 0 with e0 | a0
    · simp only []
      unfold safeCallRun
      rcases f 1 with e1 | a1
      · simp only []
        unfold safeCallRun
        rcases f 2 with e2 | a2 <;> simp
      · simp
    · simp
  refine ⟨?_, hdelay, ?_, ?_, ?_, ?_⟩
  · have := safeCallRun_calls_le f 3000 0 2
    simpa [safeCall] using this
  · intro a h0
    simp [safeCall, safeCallRun, h0]
  · intro e0 a h0 h1
    simp [safeCall, safeCallRun, h0, h1]
  · intro e0 e1 a h0 h1 h2
    simp [safeCall, safeCallRun, h0, h1, h2]
  · intro e0 e1 e2 h0 h1 h2
    simp [safeCall, safeCallRun, h0, h1, h2]

/-- Claim C2 witness: a call failing twice then succeeding returns the
success after 3 attempts and 2 × 3000 ms of sleeping. -/
theorem safeCall_retry_contract_witness :
    ((fun k => if k < 2 then (.error "boom" : Except String JobRecord)
        else .ok (wRec 0)) 0 = .error "boom" ∧
      (fun k => if k < 2 then (.error "boom" : Except String JobRecord)
        else .ok (wRec 0)) 1 = .error "boom" ∧
      (fun k => if k < 2 then (.error "boom" : Except String JobRecord)
        else .ok (wRec 0)) 2 = .ok (wRec 0)) ∧
    safeCall (fun k => if k < 2 then (.error "boom" : Except String JobRecord)
        else .ok (wRec 0)) = (.ok (wRec 0), 3, 6000) :=
  ⟨⟨rfl, rfl, rfl⟩,
    (safeCall_retry_contract (fun k => if k < 2 then .error "boom" else .ok (wRec 0))).2.2.2.2.1
      "boom" "boom" (wRec 0) rfl rfl rfl⟩

lemma initLoop_calls_le (f : Nat → Option InitErr) :
    ∀ (fuel rc c : Nat) (ds : List Nat), (initLoop f rc c ds fuel).calls ≤ c + fuel := by
  intro fuel
  induction fuel with
  | zero => intro rc c ds; simp [initLoop]
  | succ n ih =>
    intro rc c ds
    rcases h0 : f rc with _ | e
    · simp [initLoop, h0]
    · simp only [initLoop, h0]
      split
      · exact le_trans (ih (rc + 1) (c + 1) _) (by omega)
      · simp

/-- Claim C8: `initializeMidjourney` is an idempotent ensure-ready (no-op
when the flag is already set), makes up to 3 connection attempts, waits
3000 ms × attempt-number between attempts, retries only `ENOTFOUND`
failures, and any other failure aborts immediately and propagates. -/
theorem initializeMJ_contract (f : Nat → Option InitErr) :
    (initializeMJ true f = ⟨.ok (), true, 0, []⟩) ∧
    ((initializeMJ false f).calls ≤ 3) ∧
    (f 0 = none → initializeMJ false f = ⟨.ok (), true, 1, []⟩) ∧
    (f 0 = some .enotfound → f 1 = none →
        initializeMJ false f = ⟨.ok (), true, 2, [3000]⟩) ∧
    (f 0 = some .enotfound → f 1 = some .enotfound → f 2 = none →
        initializeMJ false f = ⟨.ok (), true, 3, [3000, 6000]⟩) ∧
    (f 0 = some .enotfound → f 1 = some .enotfound → f 2 = some .enotfound →
        initializeMJ false f = ⟨.error .enotfound, false, 3, [3000, 6000]⟩) ∧
    (f 0 = some .other → initializeMJ false f = ⟨.error .other, false, 1, []⟩) ∧
    (f 0 = some .enotfound → f 1 = some .other →
        initializeMJ false f = ⟨.error .other, false, 2, [3000]⟩) ∧
    (f 0 = some .enotfound → f 1 = some .enotfound → f 2 = some .other →
        initializeMJ false f = ⟨.error .other, false, 3, [3000, 6000]⟩) := by
  have hcalls : (initializeMJ false f).calls ≤ 3 := by
    have := initLoop_calls_le f 3 0 0 []
    simpa [initializeMJ] using this
  refine ⟨rfl, hcalls, ?_, ?_, ?_, ?_, ?_, ?_, ?_⟩
  · intro h0
    simp [initializeMJ, initLoop, h0]
  · intro h0 h1
    simp [initializeMJ, initLoop, h0, h1]
  · intro h0 h1 h2
    simp [initializeMJ, initLoop, h0, h1, h2]
  · intro h0 h1 h2
    simp [initializeMJ, initLoop, h0, h1, h2]
  · intro h0
    simp [initializeMJ, initLoop, h0]
  · intro h0 h1
    simp [initializeMJ, initLoop, h0, h1]
  · intro h0 h1 h2
    simp [initializeMJ, initLoop, h0, h1, h2]

/-- Claim C8 witness: two `ENOTFOUND` failures then success connects after
3 attempts with waits of 3000 ms and 6000 ms; a non-`ENOTFOUND` first
failure aborts at once. -/
theorem initializeMJ_contract_witness :
    ((fun k => if k < 2 then some InitErr.enotfound else none) 0 = some InitErr.enotfound ∧
      (fun k => if k < 2 then some InitErr.enotfound else none) 1 = some InitErr.enotfound ∧
      (fun k => if k < 2 then some InitErr.enotfound else none) 2 = none ∧
      (fun _ => some InitErr.other) 0 = some InitErr.other) ∧
    (initializeMJ false (fun k => if k < 2 then some InitErr.enotfound else none)
        = ⟨.ok (), true, 3, [3000, 6000]⟩ ∧
      initializeMJ false (fun _ => some InitErr.other)
        = ⟨.error .other, false, 1, []⟩) :=
  ⟨⟨rfl, rfl, rfl, rfl⟩,
    (initializeMJ_contract (fun k => if k < 2 then some InitErr.enotfound else none)).2.2.2.2.1
      rfl rfl rfl,
    (initializeMJ_contract (fun _ => some InitErr.other)).2.2.2.2.2.2.1 rfl⟩

/-! Claims about the pacing delay and the endpoint handlers. -/

/-- Claim C4: in the upscale loop, a caller-supplied (truthy)
`delayBetweenUpscales` is clamped into [10000, 15000] ms (5000 becomes
10000); an absent one draws `Math.floor(Math.random()*5000) + 10000`,
i.e. a value in [10000, 15000); and each iteration's wait event comes
before any invocation, as the head of the step's event list. -/
theorem upscale_pacing_contract :
    (∀ (n : Int) (rand : Nat), n ≠ 0 →
        effectiveDelay (.num n) rand = max 10000 (min n 15000) ∧
        10000 ≤ effectiveDelay (.num n) rand ∧ effectiveDelay (.num n) rand ≤ 15000) ∧
    (∀ rand : Nat, effectiveDelay (.num 5000) rand = 10000) ∧
    (∀ rand : Nat, effectiveDelay .absent rand = ((rand % 5000 : Nat) : Int) + 10000 ∧
        10000 ≤ effectiveDelay .absent rand ∧ effectiveDelay .absent rand < 15000) ∧
    (∀ (vmOptions : List MJOption) (dp : DelayParam) (inp : StepInput) (label : String),
        (upscaleStep vmOptions dp inp label).events.head?
          = some (Event.delayEv (effectiveDelay dp inp.rand))) := by
  refine ⟨?_, ?_, ?_, ?_⟩
  · intro n rand hn
    have ht : DelayParam.truthy (.num n) = true := by
      simp [DelayParam.truthy, hn]
    have hp : DelayParam.parsedOr10000 (.num n) = n := by
      simp [DelayParam.parsedOr10000, hn]
    refine ⟨?_, ?_, ?_⟩
    · simp [effectiveDelay, ht, hp]
    · simp only [effectiveDelay, ht, if_true, hp]
      exact le_max_left _ _
    · simp only [effectiveDelay, ht, if_true, hp]
      exact max_le (by norm_num) (min_le_right _ _)
  · intro rand
    norm_num [effectiveDelay, DelayParam.truthy, DelayParam.parsedOr10000]
  · intro rand
    have hm : rand % 5000 < 5000 := Nat.mod_lt rand (by norm_num)
    refine ⟨rfl, ?_, ?_⟩
    · simp only [effectiveDelay, DelayParam.truthy, Bool.false_eq_true, if_false]
      omega
    · simp only [effectiveDelay, DelayParam.truthy, Bool.false_eq_true, if_false]
      omega
  · intro vmOptions dp inp label
    rcases hf : vmOptions.find? (fun o => o.label == label) with _ | opt
    · simp [upscaleStep, hf]
    · rcases hc : inp.call with _ | v
      · simp [upscaleStep, hf, hc]
      · rcases v with _ | up
        · simp [upscaleStep, hf, hc]
        · rcases hu : jsTruthyStr (jsOrStr up.uri up.attachments.head?) with _ | url <;>
            simp [upscaleStep, hf, hc, hu]

/-- Claim C4 witness: instantiation of the clamp branch at a concrete
supplied delay of 12000 ms. -/
theorem upscale_pacing_contract_witness :
    ((12000 : Int) ≠ 0 ∧
      effectiveDelay (.num 12000) 3 = max 10000 (min 12000 15000) ∧
      10000 ≤ effectiveDelay (.num 12000) 3 ∧ effectiveDelay (.num 12000) 3 ≤ 15000) :=
  ⟨by decide, upscale_pacing_contract.1 12000 3 (by decide)⟩

/-- Claim C9: a present-but-falsy `delayBetweenUpscales` (the number 0)
takes the random pacing path (so the delay is `10000 + rand % 5000`, not
the 10000 clamping would give); a truthy value that does not parse as an
integer yields exactly 10000 ms. -/
theorem upscale_delay_falsy_contract :
    (∀ rand : Nat, effectiveDelay (.num 0) rand = effectiveDelay .absent rand) ∧
    (effectiveDelay (.num 0) 1 = 10001 ∧ max 10000 (min (0 : Int) 15000) = 10000) ∧
    (∀ rand : Nat, effectiveDelay (.num 0) rand = ((rand % 5000 : Nat) : Int) + 10000) ∧
    (∀ rand : Nat, effectiveDelay .nonNumStr rand = 10000) := by
  refine ⟨fun rand => rfl, ⟨by decide, by decide⟩, fun rand => rfl, fun rand => ?_⟩
  norm_num [effectiveDelay, DelayParam.truthy, DelayParam.parsedOr10000]

/-- Claim C6: `/generate-images` rejects with 400 a missing/empty keyword
or missing count, rejects with 400 a count outside [1, 10] (0 and 11
included), and for every accepted request issues exactly one Imagine call
and reports `generatedCount: 1` regardless of the count value. -/
theorem generateImages_contract :
    (∀ (req : GenRequest) (store : Store) (w : GenWorld),
        (jsFalsyStrOpt req.keyword = true ∨ req.count = none) →
        generateImages req store w = (.missingParams, store, 0)) ∧
    (∀ (kw : String) (c : Int) (store : Store) (w : GenWorld),
        ¬ kw = "" → (c < 1 ∨ c > 10) →
        generateImages ⟨some kw, some c⟩ store w = (.badCount, store, 0)) ∧
    (∀ (kw : String) (c : Int) (store : Store) (w : GenWorld),
        ¬ kw = "" → 1 ≤ c → c ≤ 10 →
        (generateImages ⟨some kw, some c⟩ store w).2.2 = 1 ∧
        (∀ id url opts g, (generateImages ⟨some kw, some c⟩ store w).1
            = GenResponse.success id url opts g → g = 1)) := by
  refine ⟨?_, ?_, ?_⟩
  · intro req store w h
    obtain ⟨kw, cnt⟩ := req
    rcases cnt with _ | c
    · rfl
    · rcases h with h | h
      · simp only at h
        simp [generateImages, h]
      · exact absurd h (by simp)
  · intro kw c store w hkw hc
    have hfalsy : jsFalsyStrOpt (some kw) = false := by simp [jsFalsyStrOpt, hkw]
    have hcond : (decide (c < 1) || decide (c > 10)) = true := by
      rcases hc with h | h <;> simp [h]
    simp [generateImages, hfalsy, hcond]
  · intro kw c store w hkw h1 h10
    have hfalsy : jsFalsyStrOpt (some kw) = false := by simp [jsFalsyStrOpt, hkw]
    have hcond : (decide (c < 1) || decide (c > 10)) = false := by
      simp only [Bool.or_eq_false_iff, decide_eq_false_iff_not]
      omega
    rcases hi : w.imagine with _ | v
    · refine ⟨by simp [generateImages, hfalsy, hcond, hi], ?_⟩
      intro id url opts g hresp
      simp [generateImages, hfalsy, hcond, hi] at hresp
    · rcases v with _ | resp
      · refine ⟨by simp [generateImages, hfalsy, hcond, hi], ?_⟩
        intro id url opts g hresp
        simp [generateImages, hfalsy, hcond, hi] at hresp
      · refine ⟨by simp [generateImages, hfalsy, hcond, hi], ?_⟩
        intro id url opts g hresp
        simp only [generateImages, hfalsy, Bool.false_eq_true, if_false, hcond, hi] at hresp
        rw [GenResponse.success.injEq] at hresp
        exact hresp.2.2.2.symm

/-- Claim C6 witness: count 0 and 11 rejected, count 5 accepted with one
Imagine call and `generatedCount = 1`. -/
theorem generateImages_contract_witness :
    ((¬ "cat" = "" ∧ ((0 : Int) < 1 ∨ (0 : Int) > 10)) ∧
      generateImages ⟨some "cat", some 0⟩ [] ⟨.raise, 9⟩ = (.badCount, [], 0)) ∧
    ((¬ "cat" = "" ∧ ((11 : Int) < 1 ∨ (11 : Int) > 10)) ∧
      generateImages ⟨some "cat", some 11⟩ [] ⟨.raise, 9⟩ = (.badCount, [], 0)) ∧
    ((¬ "cat" = "" ∧ (1 : Int) ≤ 5 ∧ (5 : Int) ≤ 10) ∧
      (generateImages ⟨some "cat", some 5⟩ [] ⟨.value (some (wRec 0)), 9⟩).2.2 = 1) :=
  ⟨⟨⟨by decide, by decide⟩,
      generateImages_contract.2.1 "cat" 0 [] ⟨.raise, 9⟩ (by decide) (by decide)⟩,
    ⟨⟨by decide, by decide⟩,
      generateImages_contract.2.1 "cat" 11 [] ⟨.raise, 9⟩ (by decide) (by decide)⟩,
    ⟨by decide, by decide⟩,
    (generateImages_contract.2.2 "cat" 5 [] ⟨.value (some (wRec 0)), 9⟩
      (by decide) (by decide) (by decide)).1⟩

/-- Claim C7: `/generate-upscale-from-variation` answers 404 when the id
is absent from the store or its record has no options, and 404 listing
the available labels when no option is labeled `V{variationIndex}`; in
all three cases no external action is invoked (empty event trace) and the
store is unchanged. -/
theorem upscale_notFound_contract :
    (∀ (origId : String) (vn : Int) (dp : DelayParam) (store : Store) (w : UpscaleWorld),
        ¬ origId = "" → 1 ≤ vn → vn ≤ 4 →
        getMessage store origId = none →
        generateUpscaleFromVariation ⟨some origId, some vn, dp⟩ store w
          = (.notFoundNoMessage, store, [])) ∧
    (∀ (origId : String) (vn : Int) (dp : DelayParam) (store : Store) (w : UpscaleWorld)
        (orig : JobRecord),
        ¬ origId = "" → 1 ≤ vn → vn ≤ 4 →
        getMessage store origId = some orig → orig.options = none →
        generateUpscaleFromVariation ⟨some origId, some vn, dp⟩ store w
          = (.notFoundNoMessage, store, [])) ∧
    (∀ (origId : String) (vn : Int) (dp : DelayParam) (store : Store) (w : UpscaleWorld)
        (orig : JobRecord) (opts : List MJOption),
        ¬ origId = "" → 1 ≤ vn → vn ≤ 4 →
        getMessage store origId = some orig → orig.options = some opts →
        opts.find? (fun o => o.label == "V" ++ toString vn) = none →
        generateUpscaleFromVariation ⟨some origId, some vn, dp⟩ store w
          = (.notFoundNoVariation (opts.map (fun o => o.label)), store, [])) := by
  refine ⟨?_, ?_, ?_⟩
  · intro origId vn dp store w hid h1 h4 hget
    have hfalsy : jsFalsyStrOpt (some origId) = false := by simp [jsFalsyStrOpt, hid]
    have hlt : decide (vn < 1) = false := by simp; omega
    have hgt : decide (vn > 4) = false := by simp; omega
    simp [generateUpscaleFromVariation, hfalsy, hlt, hgt, hget]
  · intro origId vn dp store w orig hid h1 h4 hget hopts
    have hfalsy : jsFalsyStrOpt (some origId) = false := by simp [jsFalsyStrOpt, hid]
    have hlt : decide (vn < 1) = false := by simp; omega
    have hgt : decide (vn > 4) = false := by simp; omega
    simp [generateUpscaleFromVariation, hfalsy, hlt, hgt, hget, hopts]
  · intro origId vn dp store w orig opts hid h1 h4 hget hopts hfind
    have hfalsy : jsFalsyStrOpt (some origId) = false := by simp [jsFalsyStrOpt, hid]
    have hlt : decide (vn < 1) = false := by simp; omega
    have hgt : decide (vn > 4) = false := by simp; omega
    simp [generateUpscaleFromVariation, hfalsy, hlt, hgt, hget, hopts, hfind]

/-- Claim C7 witness: unknown id, and a record whose options lack `V3`. -/
theorem upscale_notFound_contract_witness :
    ((¬ "zz" = "" ∧ (1 : Int) ≤ 2 ∧ (2 : Int) ≤ 4 ∧
        getMessage [("m1", cexOrig)] "zz" = none) ∧
      generateUpscaleFromVariation ⟨some "zz", some 2, .absent⟩ [("m1", cexOrig)] cexWorldRaise
        = (.notFoundNoMessage, [("m1", cexOrig)], [])) ∧
    ((¬ "m1" = "" ∧ (1 : Int) ≤ 3 ∧ (3 : Int) ≤ 4 ∧
        getMessage [("m1", cexOrig)] "m1" = some cexOrig ∧
        cexOrig.options = some [⟨"V1", "cv1"⟩] ∧
        ([(⟨"V1", "cv1"⟩ : MJOption)].find? (fun o => o.label == "V" ++ toString (3 : Int)))
          = none) ∧
      generateUpscaleFromVariation ⟨some "m1", some 3, .absent⟩ [("m1", cexOrig)] cexWorldRaise
        = (.notFoundNoVariation ["V1"], [("m1", cexOrig)], [])) :=
  ⟨⟨⟨by decide, by decide, by decide, by decide⟩,
      upscale_notFound_contract.1 "zz" 2 .absent [("m1", cexOrig)] cexWorldRaise
        (by decide) (by decide) (by decide) (by decide)⟩,
    ⟨by decide, by decide, by decide, by decide, by decide, by decide⟩,
    (upscale_notFound_contract.2.2 "m1" 3 .absent [("m1", cexOrig)] cexWorldRaise
        cexOrig [⟨"V1", "cv1"⟩] (by decide) (by decide) (by decide) (by decide)
        (by decide) (by decide)).trans (by decide)⟩

/-- Claim C3 counterexample: a valid request whose variation step succeeds
but whose first upscale `safeCall` throws after its retries is answered by
the outer `catch`'s 500-equivalent error response, not by a 200 success —
refuting "the operation always returns a 200-equivalent success response"
for the raising-invoke failure kind. -/
theorem upscale_raise_counterexample :
    (generateUpscaleFromVariation ⟨some "m1", some 1, .absent⟩ [("m1", cexOrig)]
        cexWorldRaise).1 = UpscaleResponse.caughtError := by
  rfl

/-- Claim C3 (amended): once the variation step has succeeded, the
per-label failure kinds "missing option", "missing response" and "no
extractable output locator" are skipped non-fatally and the operation
returns the 200 success body with whichever upscales completed (possibly
none); however an upscale invoke that raises after retries propagates and
the operation returns the 500-equivalent error response instead. -/
theorem upscale_partial_failure_contract
    (origId : String) (vn : Int) (dp : DelayParam) (store : Store) (w : UpscaleWorld)
    (orig : JobRecord) (opts : List MJOption) (vopt : MJOption)
    (vm : JobRecord) (vmOptions : List MJOption)
    (hid : ¬ origId = "") (h1 : 1 ≤ vn) (h4 : vn ≤ 4)
    (hget : getMessage store origId = some orig)
    (hopts : orig.options = some opts)
    (hfind : opts.find? (fun o => o.label == "V" ++ toString vn) = some vopt)
    (hvar : w.variationCall = .value (some vm))
    (hvmopts : vm.options = some vmOptions) :
    ((upscaleStep vmOptions dp (w.upscaleSteps 0) "U1").raised = false →
      (upscaleStep vmOptions dp (w.upscaleSteps 1) "U2").raised = false →
      (generateUpscaleFromVariation ⟨some origId, some vn, dp⟩ store w).1
        = .completed origId ("V" ++ toString vn) vm.id
            ((upscaleStep vmOptions dp (w.upscaleSteps 0) "U1").img.toList
              ++ (upscaleStep vmOptions dp (w.upscaleSteps 1) "U2").img.toList)
            dp.truthy) ∧
    ((upscaleStep vmOptions dp (w.upscaleSteps 0) "U1").raised = true →
      (generateUpscaleFromVariation ⟨some origId, some vn, dp⟩ store w).1
        = UpscaleResponse.caughtError) ∧
    ((upscaleStep vmOptions dp (w.upscaleSteps 0) "U1").raised = false →
      (upscaleStep vmOptions dp (w.upscaleSteps 1) "U2").raised = true →
      (generateUpscaleFromVariation ⟨some origId, some vn, dp⟩ store w).1
        = UpscaleResponse.caughtError) := by
  have hfalsy : jsFalsyStrOpt (some origId) = false := by simp [jsFalsyStrOpt, hid]
  have hlt : decide (vn < 1) = false := by simp; omega
  have hgt : decide (vn > 4) = false := by simp; omega
  refine ⟨?_, ?_, ?_⟩
  · intro hr0 hr1
    simp [generateUpscaleFromVariation, hfalsy, hlt, hgt, hget, hopts, hfind, hvar,
      hvmopts, runUpscaleLoop, hr0, hr1]
  · intro hr0
    simp [generateUpscaleFromVariation, hfalsy, hlt, hgt, hget, hopts, hfind, hvar,
      hvmopts, runUpscaleLoop, hr0]
  · intro hr0 hr1
    simp [generateUpscaleFromVariation, hfalsy, hlt, hgt, hget, hopts, hfind, hvar,
      hvmopts, runUpscaleLoop, hr0, hr1]

/-- Claim C3 (amended) witness: a variation record lacking `U1` with a
successful `U2` yields a 200 success listing only `U2`'s result. -/
theorem upscale_partial_failure_witness :
    ((¬ "m1" = "" ∧ (1 : Int) ≤ 1 ∧ (1 : Int) ≤ 4 ∧
        getMessage [("m1", cexOrig)] "m1" = some cexOrig ∧
        cexOrig.options = some [⟨"V1", "cv1"⟩] ∧
        ([(⟨"V1", "cv1"⟩ : MJOption)].find? (fun o => o.label == "V" ++ toString (1 : Int)))
          = some ⟨"V1", "cv1"⟩ ∧
        cexWorldNoU1.variationCall = .value (some cexVmNoU1) ∧
        cexVmNoU1.options = some [⟨"U2", "cu2"⟩] ∧
        (upscaleStep [⟨"U2", "cu2"⟩] .absent (cexWorldNoU1.upscaleSteps 0) "U1").raised
          = false ∧
        (upscaleStep [⟨"U2", "cu2"⟩] .absent (cexWorldNoU1.upscaleSteps 1) "U2").raised
          = false) ∧
      (generateUpscaleFromVariation ⟨some "m1", some 1, .absent⟩ [("m1", cexOrig)]
          cexWorldNoU1).1
        = UpscaleResponse.completed "m1" "V1" "vm1" [⟨"U2", "upurl", 2⟩] false) :=
  ⟨⟨by decide, by decide, by decide, by decide, by decide, by decide, by rfl, by decide,
      by decide, by decide⟩,
    ((upscale_partial_failure_contract "m1" 1 .absent [("m1", cexOrig)] cexWorldNoU1
        cexOrig [⟨"V1", "cv1"⟩] ⟨"V1", "cv1"⟩ cexVmNoU1 [⟨"U2", "cu2"⟩]
        (by decide) (by decide) (by decide) (by decide) (by decide) (by decide)
        (by rfl) (by decide)).1 (by decide) (by decide)).trans (by decide)⟩

end Forn8n
